import Mathlib

/-!
Verification of the quant-trading core against its specification.

The Python sources are shallowly embedded: prices and cash amounts become
`Rat`, share quantities become `Int`, dictionaries become association lists
keyed by symbol, and methods that raise become `Option`-returning functions.
Each definition mirrors one function of the repository
(`quantcapital/entities/position.py`, `entities/order.py`,
`python/quantcapital/entities/account.py`, `entities/fill.py`,
`portfolio/portfolio_manager.py`, `data/data_handler.py`,
`python/quantcapital/execution/execution_handler.py`).
-/

unseal Rat.add Rat.mul Rat.inv Rat.sub

namespace QuantCapital

/-- Buy/sell side, as in `OrderSide` / `Fill.side` of the source. -/
inductive Side where
  | buy
  | sell
deriving DecidableEq

/-- `Fill` from `entities/fill.py`: one execution record.  The `order_id`,
`fill_id`, `timestamp` and `strategy_id` fields play no role in the account
arithmetic and are omitted here (a separate `FillRec` models them for the
determinism claim). -/
structure Fill where
  symbol : String
  side : Side
  quantity : Int
  price : Rat
  commission : Rat
deriving DecidableEq

/-- `Fill.total_amount`: quantity times price. -/
def Fill.total_amount (f : Fill) : Rat := f.quantity * f.price

/-- `Fill.net_amount`: gross amount plus commission for BUY, minus for SELL. -/
def Fill.net_amount (f : Fill) : Rat :=
  if f.side = Side.buy then f.total_amount + f.commission
  else f.total_amount - f.commission

/-- The validation performed by `Fill.__post_init__`: positive quantity and
price, non-negative commission. -/
def Fill.valid (f : Fill) : Prop :=
  0 < f.quantity ∧ 0 < f.price ∧ 0 ≤ f.commission

instance : DecidablePred Fill.valid := fun f => by
  unfold Fill.valid; infer_instance

/-- `Position` from `entities/position.py`. -/
structure Position where
  symbol : String
  quantity : Int
  avg_price : Rat
deriving DecidableEq

/-- `Position.update_position(quantity_change, fill_price)`:
same-direction fills re-average the cost basis (with the source's `abs`),
a sign flip adopts the fill price, a reduction keeps the old basis. -/
def Position.update_position (pos : Position) (quantity_change : Int)
    (fill_price : Rat) : Position :=
  if quantity_change = 0 then pos
  else if (0 ≤ pos.quantity ∧ 0 < quantity_change) ∨
       (pos.quantity ≤ 0 ∧ quantity_change < 0) then
    if pos.quantity + quantity_change ≠ 0 then
      { pos with
        quantity := pos.quantity + quantity_change,
        avg_price :=
          |((pos.quantity : Rat) * pos.avg_price +
            (quantity_change : Rat) * fill_price) /
            ((pos.quantity + quantity_change : Int) : Rat)| }
    else { pos with quantity := pos.quantity + quantity_change }
  else if (pos.quantity + quantity_change) * pos.quantity < 0 then
    { pos with
      quantity := pos.quantity + quantity_change,
      avg_price := fill_price }
  else
    { pos with quantity := pos.quantity + quantity_change }

/-- `Position.unrealized_pnl(current_price)`. -/
def Position.unrealized_pnl (pos : Position) (current_price : Rat) : Rat :=
  if pos.quantity = 0 then 0
  else (pos.quantity : Rat) * (current_price - pos.avg_price)

/-- `OrderType` enum. -/
inductive OrderType where
  | limit
  | market
deriving DecidableEq

/-- `OrderStatus` enum. -/
inductive OrderStatus where
  | pending
  | submitted
  | filled
  | partially_filled
  | cancelled
  | rejected
deriving DecidableEq

/-- `Order` from `entities/order.py`.  `_total_filled_amount` is the
accumulated filled amount used to derive the average filled price. -/
structure Order where
  symbol : String
  order_type : OrderType
  side : Side
  quantity : Int
  price : Rat
  strategy_id : String
  status : OrderStatus
  filled_quantity : Int
  total_filled_amount : Rat
deriving DecidableEq

/-- A freshly constructed order: status PENDING, nothing filled. -/
def Order.new (symbol : String) (order_type : OrderType) (side : Side)
    (quantity : Int) (price : Rat) (strategy_id : String) : Order :=
  { symbol := symbol, order_type := order_type, side := side,
    quantity := quantity, price := price, strategy_id := strategy_id,
    status := OrderStatus.pending, filled_quantity := 0,
    total_filled_amount := 0 }

/-- `Order.remaining_quantity`. -/
def Order.remaining_quantity (o : Order) : Int := o.quantity - o.filled_quantity

/-- `Order.avg_filled_price`: 0 when nothing is filled. -/
def Order.avg_filled_price (o : Order) : Rat :=
  if o.filled_quantity = 0 then 0
  else o.total_filled_amount / (o.filled_quantity : Rat)

/-- `Order.fill_order(fill_quantity, fill_price)`.  The source raises
`ValueError` on a non-positive quantity or one exceeding the remaining
quantity; that is `none` here, and the order is left unchanged. -/
def Order.fill_order (o : Order) (fill_quantity : Int) (fill_price : Rat) :
    Option Order :=
  if fill_quantity ≤ 0 then none
  else if o.remaining_quantity < fill_quantity then none
  else some
    { o with
      filled_quantity := o.filled_quantity + fill_quantity,
      total_filled_amount :=
        o.total_filled_amount + (fill_quantity : Rat) * fill_price,
      status :=
        if o.filled_quantity + fill_quantity = o.quantity then
          OrderStatus.filled
        else OrderStatus.partially_filled }

/-- Apply a sequence of `(fill_quantity, fill_price)` steps; a step the
source would reject leaves the order unchanged. -/
def Order.applyFills (o : Order) (steps : List (Int × Rat)) : Order :=
  steps.foldl (fun acc s => (acc.fill_order s.1 s.2).getD acc) o

/-- `Trade` from `entities/trade.py`, reduced to the fields the claims
mention.  `closed` stands for `status == 'CLOSED'`. -/
structure Trade where
  symbol : String
  strategy_id : String
  buy_price : Rat
  buy_quantity : Int
  sell_price : Option Rat
  sell_quantity : Option Int
  realized_pnl : Rat
  total_commission : Rat
  closed : Bool
deriving DecidableEq

/-- `Account` from `python/quantcapital/entities/account.py`.  The
`positions` dict is an association list of `Position`s keyed by their
`symbol`; `orders` keeps only the recorded orders. -/
structure Account where
  account_id : String
  initial_capital : Rat
  cash : Rat
  frozen_cash : Rat
  positions : List Position
  orders : List Order
  fills : List Fill
  trades : List Trade
  total_commission : Rat
  total_realized_pnl : Rat
deriving DecidableEq

/-- A freshly constructed account (`Account(account_id, capital, capital)`). -/
def Account.new (account_id : String) (initial_capital : Rat) : Account :=
  { account_id := account_id, initial_capital := initial_capital,
    cash := initial_capital, frozen_cash := 0, positions := [], orders := [],
    fills := [], trades := [], total_commission := 0, total_realized_pnl := 0 }

/-- `Account.available_cash`. -/
def Account.available_cash (a : Account) : Rat := a.cash - a.frozen_cash

/-- `Account.freeze_cash(amount, order_id)`: rejects a non-positive amount or
one exceeding the available cash, otherwise adds it to `frozen_cash`.  The
`order_id` argument is unused by the source as well. -/
def Account.freeze_cash (a : Account) (amount : Rat) (_order_id : String) :
    Account × Bool :=
  if amount ≤ 0 then (a, false)
  else if a.available_cash < amount then (a, false)
  else ({ a with frozen_cash := a.frozen_cash + amount }, true)

/-- `Account.unfreeze_cash(amount)`: saturating subtraction from
`frozen_cash`. -/
def Account.unfreeze_cash (a : Account) (amount : Rat) : Account :=
  { a with frozen_cash := max 0 (a.frozen_cash - amount) }

/-- `Account.get_position(symbol)`. -/
def Account.get_position (a : Account) (symbol : String) : Option Position :=
  a.positions.find? (fun p => p.symbol == symbol)

/-- Replace the position stored under `symbol` (dict assignment). -/
def setPosition (ps : List Position) (symbol : String) (pos : Position) :
    List Position :=
  ps.map (fun p => if p.symbol == symbol then pos else p)

/-- Delete the position stored under `symbol` (`del self.positions[symbol]`). -/
def removePosition (ps : List Position) (symbol : String) : List Position :=
  ps.filter (fun p => !(p.symbol == symbol))

/-- The signed quantity change a fill induces
(`fill.quantity if BUY else -fill.quantity`). -/
def fillDelta (f : Fill) : Int :=
  if f.side = Side.buy then f.quantity else -f.quantity

/-- The positions dict after `Account.update_position(fill)`: a missing,
non-zero position is created at the fill price; an existing one is updated
by the cost-basis rule and deleted if it ends empty. -/
def updatedPositions (a : Account) (fill : Fill) : List Position :=
  match a.get_position fill.symbol with
  | none =>
      if fillDelta fill ≠ 0 then
        a.positions ++
          [({ symbol := fill.symbol, quantity := fillDelta fill,
              avg_price := fill.price } : Position)]
      else a.positions
  | some pos =>
      if (pos.update_position (fillDelta fill) fill.price).quantity = 0 then
        removePosition a.positions fill.symbol
      else
        setPosition a.positions fill.symbol
          (pos.update_position (fillDelta fill) fill.price)

/-- `Account.update_position(fill)`: create/update/delete the position,
move cash by `net_amount`, accumulate commission, append the fill. -/
def Account.update_position (a : Account) (fill : Fill) : Account :=
  { a with
    positions := updatedPositions a fill,
    cash :=
      if fill.side = Side.buy then a.cash - fill.net_amount
      else a.cash + fill.net_amount,
    total_commission := a.total_commission + fill.commission,
    fills := a.fills ++ [fill] }

/-- `Account.get_total_value(current_prices)`: cash plus signed position
quantities marked at the given price, falling back to the cost basis.  A
price dict is embedded as a partial function. -/
def Account.get_total_value (a : Account) (prices : String → Option Rat) : Rat :=
  a.cash +
    (a.positions.map
      (fun p => (p.quantity : Rat) * ((prices p.symbol).getD p.avg_price))).sum

/-- `Account.get_unrealized_pnl(current_prices)`. -/
def Account.get_unrealized_pnl (a : Account) (prices : String → Option Rat) :
    Rat :=
  (a.positions.map
    (fun p => p.unrealized_pnl ((prices p.symbol).getD p.avg_price))).sum

/-- `Account.get_position_value(current_prices)`: absolute quantities. -/
def Account.get_position_value (a : Account) (prices : String → Option Rat) :
    Rat :=
  (a.positions.map
    (fun p => |(p.quantity : Rat)| * ((prices p.symbol).getD p.avg_price))).sum

/-- `Account.add_order(order)`. -/
def Account.add_order (a : Account) (o : Order) : Account :=
  { a with orders := a.orders ++ [o] }

/-- `PortfolioRiskManager.on_fill`: update the account from the fill, then
unfreeze `quantity·price + commission` for a BUY.  Note the source never
touches `trades` or `total_realized_pnl` here. -/
def onFill (a : Account) (fill : Fill) : Account :=
  let a1 := a.update_position fill
  if fill.side = Side.buy then
    a1.unfreeze_cash ((fill.quantity : Rat) * fill.price + fill.commission)
  else a1

/-- A whole sequence of fills through the portfolio manager. -/
def processFills (a : Account) (fs : List Fill) : Account :=
  fs.foldl onFill a

/-- The cost-basis realized pnl a single fill books into cash: zero for a
same-direction (or opening) fill, `|Δq|·(price − avg)` signed for a
reduction, the whole old position's pnl on a sign flip.  This is a ghost
quantity of the verification; the source account's `total_realized_pnl`
field is never updated on the fill path. -/
def realizedDelta (posq : Option Position) (dq : Int) (p : Rat) : Rat :=
  match posq with
  | none => 0
  | some pos =>
      if dq = 0 then 0
      else if (0 ≤ pos.quantity ∧ 0 < dq) ∨ (pos.quantity ≤ 0 ∧ dq < 0) then 0
      else if (pos.quantity + dq) * pos.quantity < 0 then
        (pos.quantity : Rat) * (p - pos.avg_price)
      else (-dq : Int) * (p - pos.avg_price)

/-- One fill step, also accumulating the ghost realized pnl. -/
def onFillR (ar : Account × Rat) (f : Fill) : Account × Rat :=
  (onFill ar.1 f,
   ar.2 + realizedDelta (ar.1.get_position f.symbol) (fillDelta f) f.price)

/-- A fill sequence with its accumulated ghost realized pnl. -/
def processFillsR (a : Account) (fs : List Fill) : Account × Rat :=
  fs.foldl onFillR (a, 0)

/-- The most recent fill price per symbol, as a partial price map. -/
def lastPrices (fs : List Fill) : String → Option Rat :=
  fs.foldl (fun m f => fun s => if s == f.symbol then some f.price else m s)
    (fun _ => none)

/-- `quantity·avg_price`, the cost-basis book value of one position. -/
def posVal (p : Position) : Rat := (p.quantity : Rat) * p.avg_price

/-- Total cost-basis book value of a position list. -/
def positionsVal (ps : List Position) : Rat := (ps.map posVal).sum

/-- The account well-formedness the fill path maintains: position symbols
are distinct (they key a dict) and cost bases are non-negative
(`Position.__post_init__`). -/
def AccInv (a : Account) : Prop :=
  (a.positions.map Position.symbol).Nodup ∧
    ∀ p ∈ a.positions, 0 ≤ p.avg_price

/-- `SignalDirection` enum. -/
inductive SignalDirection where
  | buy
  | sell
  | hold
deriving DecidableEq

/-- `Signal` from `entities/signal.py`, reduced to the fields the portfolio
manager reads. -/
structure Signal where
  strategy_id : String
  symbol : String
  direction : SignalDirection
  strength : Rat
  price : Rat
deriving DecidableEq

/-- The risk-parameter slice of the portfolio manager's config. -/
inductive SizeMethod where
  | fixed_amount
  | percent_of_portfolio
  | signal_strength
  | other
deriving DecidableEq

/-- The config keys `PortfolioRiskManager.__init__` reads. -/
structure PortfolioConfig where
  max_position_pct : Rat
  max_total_position_pct : Rat
  min_order_amount : Rat
  position_size_method : SizeMethod
  default_position_size : Rat
deriving DecidableEq

/-- The single-entry price dict `{symbol: signal.price}` used by the gates. -/
def signalPrices (sig : Signal) : String → Option Rat :=
  fun s => if s == sig.symbol then some sig.price else none

/-- `PortfolioRiskManager._calculate_position_size(signal)`. -/
def calculatePositionSize (cfg : PortfolioConfig) (a : Account) (sig : Signal) :
    Rat :=
  match cfg.position_size_method with
  | SizeMethod.fixed_amount => cfg.default_position_size
  | SizeMethod.percent_of_portfolio =>
      a.get_total_value (signalPrices sig) * cfg.max_position_pct
  | SizeMethod.signal_strength => cfg.default_position_size * sig.strength
  | SizeMethod.other => cfg.default_position_size

/-- `PortfolioRiskManager._check_buy_risk(signal)`: reject when the symbol is
already held, the sized amount is below the minimum, available cash is below
the sized amount, or either exposure cap is exceeded. -/
def checkBuyRisk (cfg : PortfolioConfig) (a : Account) (sig : Signal) : Bool :=
  let holds :=
    match a.get_position sig.symbol with
    | some pos => !(pos.quantity == 0)
    | none => false
  if holds then false
  else
    let order_amount := calculatePositionSize cfg a sig
    if order_amount < cfg.min_order_amount then false
    else if a.available_cash < order_amount then false
    else
      let total_value := a.get_total_value (signalPrices sig)
      if total_value * cfg.max_position_pct < order_amount then false
      else
        let current_position_value := a.get_position_value (signalPrices sig)
        if total_value * cfg.max_total_position_pct <
            current_position_value + order_amount then false
        else true

/-- `PortfolioRiskManager._check_sell_risk(signal)`: require a non-empty
position. -/
def checkSellRisk (a : Account) (sig : Signal) : Bool :=
  match a.get_position sig.symbol with
  | some pos => !(pos.quantity == 0)
  | none => false

/-- `PortfolioRiskManager._check_risk(signal)`. -/
def checkRisk (cfg : PortfolioConfig) (a : Account) (sig : Signal) : Bool :=
  match sig.direction with
  | SignalDirection.buy => checkBuyRisk cfg a sig
  | SignalDirection.sell => checkSellRisk a sig
  | SignalDirection.hold => true

/-- Python's `int()` on a rational: truncation toward zero. -/
def pyInt (x : Rat) : Int := if 0 ≤ x then x.floor else -((-x).floor)

/-- `PortfolioRiskManager._signal_to_order(signal)`.  A BUY sizes the order,
rounds down to a 100-share lot, and freezes `quantity·price·1.001`; a SELL
liquidates the whole position.  Rejection returns `none` with the account
untouched. -/
def signalToOrder (cfg : PortfolioConfig) (a : Account) (sig : Signal) :
    Option Order × Account :=
  match sig.direction with
  | SignalDirection.buy =>
      let order_amount := calculatePositionSize cfg a sig
      let quantity : Int := pyInt (order_amount / sig.price / 100) * 100
      if quantity < 100 then (none, a)
      else
        let required_cash := (quantity : Rat) * sig.price * (1001 / 1000 : Rat)
        let fr := a.freeze_cash required_cash ("temp_" ++ sig.symbol)
        if fr.2 then
          (some (Order.new sig.symbol OrderType.limit Side.buy quantity
            sig.price sig.strategy_id), fr.1)
        else (none, fr.1)
  | SignalDirection.sell =>
      match a.get_position sig.symbol with
      | none => (none, a)
      | some pos =>
          if pos.quantity = 0 then (none, a)
          else
            (some (Order.new sig.symbol OrderType.limit Side.sell
              |pos.quantity| sig.price sig.strategy_id), a)
  | SignalDirection.hold => (none, a)

/-- The dedup key `f"{symbol}_{direction}_{strategy_id}"`. -/
def signalKey (sig : Signal) : String :=
  sig.symbol ++ "_" ++
    (match sig.direction with
     | SignalDirection.buy => "BUY"
     | SignalDirection.sell => "SELL"
     | SignalDirection.hold => "HOLD") ++ "_" ++ sig.strategy_id

/-- `PortfolioRiskManager._record_signal`: add the key, clearing the set
once it exceeds 1000 entries. -/
def recordSignal (recent : List String) (sig : Signal) : List String :=
  let r2 := recent ++ [signalKey sig]
  if 1000 < r2.length then [] else r2

/-- The portfolio manager's mutable state: the account plus the
recent-signals dedup set. -/
structure PMState where
  account : Account
  recent_signals : List String
deriving DecidableEq

/-- `PortfolioRiskManager.on_signal`: dedup, risk gate, signal-to-order; on
success the order is recorded in the account and an ORDER event (the first
component) is emitted. -/
def onSignal (cfg : PortfolioConfig) (st : PMState) (sig : Signal) :
    Option Order × PMState :=
  if st.recent_signals.contains (signalKey sig) then (none, st)
  else if !(checkRisk cfg st.account sig) then (none, st)
  else
    match signalToOrder cfg st.account sig with
    | (some o, a2) =>
        (some o, { account := a2.add_order o,
                   recent_signals := recordSignal st.recent_signals sig })
    | (none, a2) => (none, { st with account := a2 })

/-- A bar, reduced to what `BacktestDataHandler.get_bars` filters on:
symbol and timestamp (an abstract integer time). -/
structure Bar where
  symbol : String
  datetime : Int
deriving DecidableEq

/-- `BacktestDataHandler`: the current-time cursor and the preloaded
in-memory bar store (the DuckDB table). -/
structure BacktestDataHandler where
  current_time : Option Int
  data : List Bar
deriving DecidableEq

/-- `BacktestDataHandler.get_bars(symbols, start_date, end_date, frequency)`:
clamp `end_date` to the cursor when one is set, then return the stored bars
of the requested symbols inside `[start_date, end_date]` (the storage
query's `BETWEEN`). -/
def BacktestDataHandler.get_bars (h : BacktestDataHandler)
    (symbols : List String) (start_date end_date : Int) : List Bar :=
  let e :=
    match h.current_time with
    | some t => if t < end_date then t else end_date
    | none => end_date
  h.data.filter
    (fun b => symbols.contains b.symbol && start_date ≤ b.datetime &&
      b.datetime ≤ e)

/-- The execution config keys `SimulatedExecutionHandler.__init__` reads. -/
structure ExecConfig where
  slippage : Rat
  commission_rate : Rat
  min_commission : Rat
deriving DecidableEq

/-- A full fill record including the identifier and timestamp fields drawn
from uuid4 and the wall clock. -/
structure FillRec where
  fill_id : String
  order_id : String
  symbol : String
  side : Side
  quantity : Int
  price : Rat
  commission : Rat
  timestamp : Int
deriving DecidableEq

/-- The process environment a run draws non-seeded values from: `uuid.uuid4()`
results and `datetime.now()` readings.  Neither is a function of the RNG
seed. -/
structure Env where
  uuids : Nat → String
  clock : Nat → Int

/-- Python's `round(x, 2)` up to tie-breaking (the source's banker rounding
differs from `round` only at exact half-cents; both are deterministic). -/
def round2 (x : Rat) : Rat := ((round (x * 100) : Int) : Rat) / 100

/-- Modelled from the spec: numpy's seeded uniform draw
(`np.random.uniform(lo, hi)` after `np.random.seed(seed)`), whose internals
are not part of this repository.  All the claims need is that it is a
deterministic function of the seed and the draw index. -/
def np_uniform (seed i : Nat) (lo hi : Rat) : Rat :=
  lo + (hi - lo) * (((seed + i) % 1000 : Nat) : Rat) / 1000

/-- `SimulatedExecutionHandler._calculate_fill_price`: adverse slippage
(`+|s|` for BUY, `−|s|` for SELL) and two-decimal rounding. -/
def calcFillPrice (slip : Rat) (o : Order) : Rat :=
  let s := if o.side = Side.buy then |slip| else -|slip|
  round2 (o.price * (1 + s))

/-- `SimulatedExecutionHandler._calculate_commission`. -/
def calcCommission (cfg : ExecConfig) (quantity : Int) (price : Rat) : Rat :=
  max ((quantity : Rat) * price * cfg.commission_rate) cfg.min_commission

/-- `SimulatedExecutionHandler._simulate_fill`: the full fill the simulator
emits for an order, with `fill_id`/`timestamp` drawn from the environment. -/
def simulateFill (cfg : ExecConfig) (env : Env) (i : Nat) (slip : Rat)
    (o : Order) (oid : String) : FillRec :=
  { fill_id := env.uuids i, order_id := oid, symbol := o.symbol,
    side := o.side, quantity := o.quantity,
    price := calcFillPrice slip o,
    commission := calcCommission cfg o.quantity (calcFillPrice slip o),
    timestamp := env.clock i }

/-- What the driver does per order: create the order (its `order_id` is a
fresh uuid) and simulate its fill (slippage drawn from the seeded RNG,
identifiers and timestamps from the environment). -/
structure OrderSpec where
  symbol : String
  side : Side
  quantity : Int
  price : Rat
deriving DecidableEq

/-- One backtest run of the execution path over a fixed order stream: the
fills the simulator emits, in order. -/
def runFills (cfg : ExecConfig) (seed : Nat) (env : Env)
    (specs : List OrderSpec) : List FillRec :=
  specs.enum.map (fun pr =>
    let i := pr.1
    let sp := pr.2
    let o := Order.new sp.symbol OrderType.limit sp.side sp.quantity sp.price ""
    simulateFill cfg env (2 * i + 1)
      (np_uniform seed i (-cfg.slippage) cfg.slippage) o (env.uuids (2 * i)))

/-- The seed-determined numeric content of a fill: everything except the
uuid identifiers and the wall-clock timestamp. -/
def FillRec.numeric (f : FillRec) : String × Side × Int × Rat × Rat :=
  (f.symbol, f.side, f.quantity, f.price, f.commission)

/-! ## Helper lemmas -/

theorem positionsVal_append (ps qs : List Position) :
    positionsVal (ps ++ qs) = positionsVal ps + positionsVal qs := by
  simp [positionsVal]

theorem setPosition_of_not_mem (ps : List Position) (s : String) (q : Position)
    (h : ∀ p ∈ ps, ¬ p.symbol = s) : setPosition ps s q = ps := by
  induction ps with
  | nil => rfl
  | cons hd tl ih =>
      have hhd : ¬ hd.symbol = s := h hd (List.mem_cons_self hd tl)
      simp only [setPosition, List.map_cons]
      rw [if_neg (by simpa using hhd)]
      have := ih (fun p hp => h p (List.mem_cons_of_mem hd hp))
      simpa [setPosition] using this

theorem removePosition_of_not_mem (ps : List Position) (s : String)
    (h : ∀ p ∈ ps, ¬ p.symbol = s) : removePosition ps s = ps := by
  unfold removePosition
  rw [List.filter_eq_self]
  intro p hp
  simpa using h p hp

theorem positionsVal_setPosition (ps : List Position) (s : String)
    (q pos : Position)
    (hfind : ps.find? (fun p => p.symbol == s) = some pos)
    (hnd : (ps.map Position.symbol).Nodup) :
    positionsVal (setPosition ps s q)
      = positionsVal ps - posVal pos + posVal q := by
  induction ps with
  | nil => simp at hfind
  | cons hd tl ih =>
      rw [List.map_cons, List.nodup_cons] at hnd
      by_cases hh : hd.symbol = s
      · rw [List.find?_cons_of_pos _ (by simpa using hh)] at hfind
        have hpos : pos = hd := by simpa using hfind.symm
        subst hpos
        have htl : ∀ p ∈ tl, ¬ p.symbol = s := by
          intro p hp hps
          have hmem : s ∈ tl.map Position.symbol := List.mem_map.mpr ⟨p, hp, hps⟩
          rw [hh] at hnd
          exact hnd.1 hmem
        simp only [setPosition, List.map_cons]
        rw [if_pos (by simpa using hh)]
        have htl2 : setPosition tl s q = tl := setPosition_of_not_mem tl s q htl
        unfold setPosition at htl2
        rw [htl2]
        simp only [positionsVal, List.map_cons, List.sum_cons]
        ring
      · rw [List.find?_cons_of_neg _ (by simpa using hh)] at hfind
        have := ih hfind hnd.2
        simp only [setPosition, List.map_cons] at *
        rw [if_neg (by simpa using hh)]
        simp only [positionsVal, List.map_cons, List.sum_cons] at *
        rw [this]
        ring

theorem positionsVal_removePosition (ps : List Position) (s : String)
    (pos : Position)
    (hfind : ps.find? (fun p => p.symbol == s) = some pos)
    (hnd : (ps.map Position.symbol).Nodup) :
    positionsVal (removePosition ps s) = positionsVal ps - posVal pos := by
  induction ps with
  | nil => simp at hfind
  | cons hd tl ih =>
      rw [List.map_cons, List.nodup_cons] at hnd
      by_cases hh : hd.symbol = s
      · rw [List.find?_cons_of_pos _ (by simpa using hh)] at hfind
        have hpos : pos = hd := by simpa using hfind.symm
        subst hpos
        have htl : ∀ p ∈ tl, ¬ p.symbol = s := by
          intro p hp hps
          have hmem : s ∈ tl.map Position.symbol := List.mem_map.mpr ⟨p, hp, hps⟩
          rw [hh] at hnd
          exact hnd.1 hmem
        simp only [removePosition, List.filter_cons]
        rw [if_neg (by simpa using hh)]
        have htl2 : removePosition tl s = tl := removePosition_of_not_mem tl s htl
        unfold removePosition at htl2
        rw [htl2]
        simp only [positionsVal, List.map_cons, List.sum_cons]
        ring
      · rw [List.find?_cons_of_neg _ (by simpa using hh)] at hfind
        have := ih hfind hnd.2
        simp only [removePosition, List.filter_cons]
        rw [if_pos (by simpa using hh)]
        simp only [positionsVal, List.map_cons, List.sum_cons] at *
        unfold removePosition at this
        rw [this]
        ring

theorem update_position_spec (pos : Position) (dq : Int) (p : Rat)
    (hp : 0 < p) (ha : 0 ≤ pos.avg_price) :
    (pos.update_position dq p).symbol = pos.symbol
    ∧ (pos.update_position dq p).quantity = pos.quantity + dq
    ∧ 0 ≤ (pos.update_position dq p).avg_price
    ∧ posVal (pos.update_position dq p)
        = posVal pos + (dq : Rat) * p + realizedDelta (some pos) dq p := by
  by_cases h0 : dq = 0
  · subst h0
    simp [Position.update_position, realizedDelta, ha]
  by_cases hss : (0 ≤ pos.quantity ∧ 0 < dq) ∨ (pos.quantity ≤ 0 ∧ dq < 0)
  · have hnq : pos.quantity + dq ≠ 0 := by omega
    have hupd : pos.update_position dq p =
        { pos with
          quantity := pos.quantity + dq,
          avg_price :=
            |((pos.quantity : Rat) * pos.avg_price + (dq : Rat) * p) /
              ((pos.quantity + dq : Int) : Rat)| } := by
      unfold Position.update_position
      rw [if_neg h0, if_pos hss, if_pos hnq]
    have hrd : realizedDelta (some pos) dq p = 0 := by
      simp only [realizedDelta]
      rw [if_neg h0, if_pos hss]
    refine ⟨by rw [hupd], by rw [hupd], by rw [hupd]; exact abs_nonneg _, ?_⟩
    rw [hupd, hrd]
    simp only [posVal]
    rcases hss with ⟨hq, hdq⟩ | ⟨hq, hdq⟩
    · have hnqpos : (0 : Int) < pos.quantity + dq := by omega
      have hcast : (0 : Rat) < ((pos.quantity + dq : Int) : Rat) := by
        exact_mod_cast hnqpos
      have htot : 0 < (pos.quantity : Rat) * pos.avg_price + (dq : Rat) * p := by
        have h1 : 0 ≤ (pos.quantity : Rat) * pos.avg_price :=
          mul_nonneg (by exact_mod_cast hq) ha
        have h2 : 0 < (dq : Rat) * p := mul_pos (by exact_mod_cast hdq) hp
        linarith
      rw [abs_of_pos (div_pos htot hcast),
        mul_div_cancel₀ _ (ne_of_gt hcast)]
      ring
    · have hnqneg : pos.quantity + dq < 0 := by omega
      have hcast : ((pos.quantity + dq : Int) : Rat) < 0 := by
        exact_mod_cast hnqneg
      have htot : (pos.quantity : Rat) * pos.avg_price + (dq : Rat) * p < 0 := by
        have h1 : (pos.quantity : Rat) * pos.avg_price ≤ 0 :=
          mul_nonpos_iff.mpr (Or.inr ⟨by exact_mod_cast hq, ha⟩)
        have h2 : (dq : Rat) * p < 0 :=
          mul_neg_of_neg_of_pos (by exact_mod_cast hdq) hp
        linarith
      have hdiv : 0 < ((pos.quantity : Rat) * pos.avg_price + (dq : Rat) * p) /
          ((pos.quantity + dq : Int) : Rat) :=
        div_pos_of_neg_of_neg htot hcast
      rw [abs_of_pos hdiv, mul_div_cancel₀ _ (ne_of_lt hcast)]
      ring
  by_cases hflip : (pos.quantity + dq) * pos.quantity < 0
  · have hupd : pos.update_position dq p =
        { pos with quantity := pos.quantity + dq, avg_price := p } := by
      unfold Position.update_position
      rw [if_neg h0, if_neg hss, if_pos hflip]
    have hrd : realizedDelta (some pos) dq p
        = (pos.quantity : Rat) * (p - pos.avg_price) := by
      simp only [realizedDelta]
      rw [if_neg h0, if_neg hss, if_pos hflip]
    refine ⟨by rw [hupd], by rw [hupd], by rw [hupd]; exact le_of_lt hp, ?_⟩
    rw [hupd, hrd]
    simp only [posVal]
    push_cast
    ring
  · have hupd : pos.update_position dq p =
        { pos with quantity := pos.quantity + dq } := by
      unfold Position.update_position
      rw [if_neg h0, if_neg hss, if_neg hflip]
    have hrd : realizedDelta (some pos) dq p
        = ((-dq : Int) : Rat) * (p - pos.avg_price) := by
      simp only [realizedDelta]
      rw [if_neg h0, if_neg hss, if_neg hflip]
    refine ⟨by rw [hupd], by rw [hupd], by rw [hupd]; exact ha, ?_⟩
    rw [hupd, hrd]
    simp only [posVal]
    push_cast
    ring

theorem setPosition_map_symbol (ps : List Position) (s : String) (q : Position)
    (hq : q.symbol = s) :
    (setPosition ps s q).map Position.symbol = ps.map Position.symbol := by
  unfold setPosition
  rw [List.map_map]
  apply List.map_congr_left
  intro x _
  simp only [Function.comp_apply]
  by_cases hx : x.symbol = s
  · rw [if_pos (by simpa using hx), hq, hx]
  · rw [if_neg (by simpa using hx)]

theorem mem_setPosition (ps : List Position) (s : String) (q x : Position)
    (hx : x ∈ setPosition ps s q) : x = q ∨ x ∈ ps := by
  unfold setPosition at hx
  obtain ⟨y, hy, hxy⟩ := List.mem_map.mp hx
  by_cases h : y.symbol = s
  · rw [if_pos (by simpa using h)] at hxy
    exact Or.inl hxy.symm
  · rw [if_neg (by simpa using h)] at hxy
    exact Or.inr (hxy ▸ hy)

theorem updatedPositions_spec (a : Account) (f : Fill) (hf : f.valid)
    (hinv : AccInv a) :
    positionsVal (updatedPositions a f)
      = positionsVal a.positions + (fillDelta f : Rat) * f.price
        + realizedDelta (a.get_position f.symbol) (fillDelta f) f.price
    ∧ ((updatedPositions a f).map Position.symbol).Nodup
    ∧ ∀ p ∈ updatedPositions a f, 0 ≤ p.avg_price := by
  obtain ⟨hq, hp, hc⟩ := hf
  obtain ⟨hnd, havg⟩ := hinv
  have hdq : fillDelta f ≠ 0 := by
    unfold fillDelta
    split <;> omega
  cases hpos : a.get_position f.symbol with
  | none =>
      have hupd : updatedPositions a f = a.positions ++
          [({ symbol := f.symbol, quantity := fillDelta f,
              avg_price := f.price } : Position)] := by
        unfold updatedPositions
        rw [hpos, if_pos hdq]
      have hnmem : ∀ p ∈ a.positions, ¬ p.symbol = f.symbol := by
        intro p hmem hpeq
        have := List.find?_eq_none.mp hpos p hmem
        simp [hpeq] at this
      refine ⟨?_, ?_, ?_⟩
      · rw [hupd, positionsVal_append]
        simp [positionsVal, posVal, realizedDelta]
      · rw [hupd, List.map_append]
        simp only [List.map_cons, List.map_nil]
        rw [List.nodup_append]
        refine ⟨hnd, List.nodup_singleton _, ?_⟩
        intro x hx hx2
        simp only [List.mem_singleton] at hx2
        obtain ⟨y, hy, hxy⟩ := List.mem_map.mp hx
        exact hnmem y hy (by rw [hxy, hx2])
      · intro p hmem
        rw [hupd] at hmem
        rcases List.mem_append.mp hmem with hmem | hmem
        · exact havg p hmem
        · simp only [List.mem_singleton] at hmem
          rw [hmem]
          exact le_of_lt hp
  | some pos =>
      have hmem : pos ∈ a.positions := List.mem_of_find?_eq_some hpos
      have hsym : pos.symbol = f.symbol := by
        have := List.find?_some hpos
        simpa using this
      have hapos : 0 ≤ pos.avg_price := havg pos hmem
      have spec := update_position_spec pos (fillDelta f) f.price hp hapos
      by_cases hz : (pos.update_position (fillDelta f) f.price).quantity = 0
      · have hupd : updatedPositions a f = removePosition a.positions f.symbol := by
          unfold updatedPositions
          rw [hpos]
          dsimp only
          rw [if_pos hz]
        have hval := positionsVal_removePosition a.positions f.symbol pos hpos hnd
        have hval2 : posVal (pos.update_position (fillDelta f) f.price) = 0 := by
          unfold posVal
          rw [hz]
          simp
        refine ⟨?_, ?_, ?_⟩
        · rw [hupd, hval]
          have := spec.2.2.2
          rw [hval2] at this
          linarith
        · rw [hupd]
          exact List.Nodup.sublist
            (List.Sublist.map _ (List.filter_sublist _)) hnd
        · intro p hmem2
          rw [hupd] at hmem2
          exact havg p (List.mem_of_mem_filter hmem2)
      · have hupd : updatedPositions a f = setPosition a.positions f.symbol
            (pos.update_position (fillDelta f) f.price) := by
          unfold updatedPositions
          rw [hpos]
          dsimp only
          rw [if_neg hz]
        have hval := positionsVal_setPosition a.positions f.symbol
          (pos.update_position (fillDelta f) f.price) pos hpos hnd
        refine ⟨?_, ?_, ?_⟩
        · rw [hupd, hval]
          have := spec.2.2.2
          linarith
        · rw [hupd, setPosition_map_symbol _ _ _ (by rw [spec.1, hsym])]
          exact hnd
        · intro p hmem2
          rw [hupd] at hmem2
          rcases mem_setPosition _ _ _ _ hmem2 with hmem2 | hmem2
          · rw [hmem2]
            exact spec.2.2.1
          · exact havg p hmem2

theorem update_position_cash (a : Account) (f : Fill) :
    (a.update_position f).cash
      = a.cash - (fillDelta f : Rat) * f.price - f.commission := by
  unfold Account.update_position Fill.net_amount Fill.total_amount fillDelta
  cases f.side <;> simp <;> ring

theorem update_position_step (a : Account) (f : Fill) (hf : f.valid)
    (hinv : AccInv a) :
    AccInv (a.update_position f)
    ∧ (a.update_position f).cash + positionsVal (a.update_position f).positions
        + (a.update_position f).total_commission
      = a.cash + positionsVal a.positions + a.total_commission
        + realizedDelta (a.get_position f.symbol) (fillDelta f) f.price
    ∧ (a.update_position f).initial_capital = a.initial_capital
    ∧ (a.update_position f).total_realized_pnl = a.total_realized_pnl
    ∧ (a.update_position f).frozen_cash = a.frozen_cash
    ∧ (a.update_position f).trades = a.trades := by
  have hups := updatedPositions_spec a f hf hinv
  have hcash := update_position_cash a f
  have hpos2 : (a.update_position f).positions = updatedPositions a f := rfl
  have hcomm : (a.update_position f).total_commission
      = a.total_commission + f.commission := rfl
  refine ⟨⟨?_, ?_⟩, ?_, rfl, rfl, rfl, rfl⟩
  · rw [hpos2]
    exact hups.2.1
  · rw [hpos2]
    exact hups.2.2
  · rw [hpos2, hcash, hcomm, hups.1]
    ring

theorem onFill_step (a : Account) (f : Fill) (hf : f.valid) (hinv : AccInv a) :
    AccInv (onFill a f)
    ∧ (onFill a f).cash + positionsVal (onFill a f).positions
        + (onFill a f).total_commission
      = a.cash + positionsVal a.positions + a.total_commission
        + realizedDelta (a.get_position f.symbol) (fillDelta f) f.price
    ∧ (onFill a f).initial_capital = a.initial_capital
    ∧ (onFill a f).total_realized_pnl = a.total_realized_pnl
    ∧ (onFill a f).trades = a.trades := by
  have h := update_position_step a f hf hinv
  unfold onFill
  by_cases hs : f.side = Side.buy
  · rw [if_pos hs]
    exact ⟨h.1, h.2.1, h.2.2.1, h.2.2.2.1, h.2.2.2.2.2⟩
  · rw [if_neg hs]
    exact ⟨h.1, h.2.1, h.2.2.1, h.2.2.2.1, h.2.2.2.2.2⟩

theorem foldl_onFillR_spec (fs : List Fill) (a : Account) (r : Rat)
    (hfs : ∀ f ∈ fs, f.valid) (hinv : AccInv a) :
    AccInv (fs.foldl onFillR (a, r)).1
    ∧ (fs.foldl onFillR (a, r)).1.cash
        + positionsVal (fs.foldl onFillR (a, r)).1.positions
        + (fs.foldl onFillR (a, r)).1.total_commission
        - (fs.foldl onFillR (a, r)).2
      = a.cash + positionsVal a.positions + a.total_commission - r
    ∧ (fs.foldl onFillR (a, r)).1.initial_capital = a.initial_capital
    ∧ (fs.foldl onFillR (a, r)).1.total_realized_pnl = a.total_realized_pnl
    ∧ (fs.foldl onFillR (a, r)).1.trades = a.trades := by
  induction fs generalizing a r with
  | nil => exact ⟨hinv, by simp, rfl, rfl, rfl⟩
  | cons f fs ih =>
      have hf : f.valid := hfs f (List.mem_cons_self f fs)
      have hstep := onFill_step a f hf hinv
      have hrec := ih (onFill a f)
        (r + realizedDelta (a.get_position f.symbol) (fillDelta f) f.price)
        (fun g hg => hfs g (List.mem_cons_of_mem f hg)) hstep.1
      have hfold : (f :: fs).foldl onFillR (a, r)
          = fs.foldl onFillR (onFill a f,
              r + realizedDelta (a.get_position f.symbol) (fillDelta f)
                f.price) := rfl
      rw [hfold]
      refine ⟨hrec.1, ?_, ?_, ?_, ?_⟩
      · have h1 := hrec.2.1
        have h2 := hstep.2.1
        linarith
      · rw [hrec.2.2.1, hstep.2.2.1]
      · rw [hrec.2.2.2.1, hstep.2.2.2.1]
      · rw [hrec.2.2.2.2, hstep.2.2.2.2]

theorem foldl_onFillR_fst (fs : List Fill) (a : Account) (r : Rat) :
    (fs.foldl onFillR (a, r)).1 = fs.foldl onFill a := by
  induction fs generalizing a r with
  | nil => rfl
  | cons f fs ih => exact ih (onFill a f) _

theorem sum_marked_sub_unrealized (ps : List Position)
    (prices : String → Option Rat) :
    (ps.map (fun p => (p.quantity : Rat) * ((prices p.symbol).getD p.avg_price))).sum
      - (ps.map (fun p => p.unrealized_pnl ((prices p.symbol).getD p.avg_price))).sum
    = positionsVal ps := by
  induction ps with
  | nil => simp [positionsVal]
  | cons hd tl ih =>
      have hh : (hd.quantity : Rat) * ((prices hd.symbol).getD hd.avg_price)
          - hd.unrealized_pnl ((prices hd.symbol).getD hd.avg_price)
          = posVal hd := by
        unfold Position.unrealized_pnl posVal
        by_cases hz : hd.quantity = 0
        · simp [hz]
        · rw [if_neg hz]
          ring
      simp only [List.map_cons, List.sum_cons, positionsVal] at *
      linarith

theorem get_total_value_sub_unrealized (a : Account)
    (prices : String → Option Rat) :
    a.get_total_value prices - a.get_unrealized_pnl prices
      = a.cash + positionsVal a.positions := by
  unfold Account.get_total_value Account.get_unrealized_pnl
  have := sum_marked_sub_unrealized a.positions prices
  linarith

/-! ## Claim theorems -/

/-- C1, counterexample: the claimed identity
`cash + Σ(position.quantity · last_price) = initial_capital +
total_realized_pnl + unrealized_pnl` already fails after a single valid BUY
fill with a positive commission (capital 1000, buy 100 shares at 1 with
commission 10): the left side is 990 while the right side is 1000, because
the commission leaves through cash without appearing in any right-hand term,
and `total_realized_pnl` is never updated on the fill path. -/
theorem c1_counterexample_commission_and_realized :
    ¬ ((processFills (Account.new "backtest" 1000)
          [⟨"X", Side.buy, 100, 1, 10⟩]).get_total_value
            (lastPrices [⟨"X", Side.buy, 100, 1, 10⟩])
        = (processFills (Account.new "backtest" 1000)
            [⟨"X", Side.buy, 100, 1, 10⟩]).initial_capital
          + (processFills (Account.new "backtest" 1000)
              [⟨"X", Side.buy, 100, 1, 10⟩]).total_realized_pnl
          + (processFills (Account.new "backtest" 1000)
              [⟨"X", Side.buy, 100, 1, 10⟩]).get_unrealized_pnl
              (lastPrices [⟨"X", Side.buy, 100, 1, 10⟩])) := by
  decide

/-- C1 (amended): through any sequence of valid fills handled by the
portfolio manager, `cash + Σ(position.quantity · last_price) =
initial_capital + realized_pnl_from_fills + unrealized_pnl −
total_commission`, where `realized_pnl_from_fills` is the cost-basis
realized pnl the fills book into cash (the ghost sum of `realizedDelta`);
the account's own `total_realized_pnl` field stays 0 because the fill path
never records a Trade. -/
theorem c1_amended_accounting_identity (cap : Rat) (hcap : 0 < cap)
    (fs : List Fill) (hfs : ∀ f ∈ fs, f.valid) :
    (processFills (Account.new "backtest" cap) fs).get_total_value
        (lastPrices fs)
      = (processFills (Account.new "backtest" cap) fs).initial_capital
        + (processFillsR (Account.new "backtest" cap) fs).2
        + (processFills (Account.new "backtest" cap) fs).get_unrealized_pnl
            (lastPrices fs)
        - (processFills (Account.new "backtest" cap) fs).total_commission
    ∧ (processFills (Account.new "backtest" cap) fs).total_realized_pnl = 0 := by
  have hinv0 : AccInv (Account.new "backtest" cap) := by
    refine ⟨by simp [Account.new], ?_⟩
    intro p hp
    simp [Account.new] at hp
  have hspec := foldl_onFillR_spec fs (Account.new "backtest" cap) 0 hfs hinv0
  have hfst := foldl_onFillR_fst fs (Account.new "backtest" cap) 0
  unfold processFills processFillsR
  rw [← hfst]
  have hsub := get_total_value_sub_unrealized
    (fs.foldl onFillR (Account.new "backtest" cap, 0)).1 (lastPrices fs)
  have h1 := hspec.2.1
  have h2 := hspec.2.2.1
  have h3 := hspec.2.2.2.1
  have e1 : (Account.new "backtest" cap).cash = cap := rfl
  have e2 : positionsVal (Account.new "backtest" cap).positions = 0 := rfl
  have e3 : (Account.new "backtest" cap).total_commission = 0 := rfl
  have e4 : (Account.new "backtest" cap).initial_capital = cap := rfl
  have e5 : (Account.new "backtest" cap).total_realized_pnl = 0 := rfl
  rw [e1, e2, e3] at h1
  rw [e4] at h2
  rw [e5] at h3
  constructor
  · linarith
  · rw [h3]

/-- Witness for C1 (amended) at capital 1000 with a buy of 100@1
(commission 10) followed by a sell of 60@2 (commission 5). -/
theorem c1_amended_accounting_identity_witness :
    (0 : Rat) < 1000
    ∧ (∀ f ∈ [(⟨"X", Side.buy, 100, 1, 10⟩ : Fill),
        ⟨"X", Side.sell, 60, 2, 5⟩], f.valid)
    ∧ ((processFills (Account.new "backtest" 1000)
          [⟨"X", Side.buy, 100, 1, 10⟩, ⟨"X", Side.sell, 60, 2, 5⟩]).get_total_value
            (lastPrices [⟨"X", Side.buy, 100, 1, 10⟩, ⟨"X", Side.sell, 60, 2, 5⟩])
        = (processFills (Account.new "backtest" 1000)
            [⟨"X", Side.buy, 100, 1, 10⟩,
             ⟨"X", Side.sell, 60, 2, 5⟩]).initial_capital
          + (processFillsR (Account.new "backtest" 1000)
              [⟨"X", Side.buy, 100, 1, 10⟩, ⟨"X", Side.sell, 60, 2, 5⟩]).2
          + (processFills (Account.new "backtest" 1000)
              [⟨"X", Side.buy, 100, 1, 10⟩,
               ⟨"X", Side.sell, 60, 2, 5⟩]).get_unrealized_pnl
              (lastPrices [⟨"X", Side.buy, 100, 1, 10⟩, ⟨"X", Side.sell, 60, 2, 5⟩])
          - (processFills (Account.new "backtest" 1000)
              [⟨"X", Side.buy, 100, 1, 10⟩,
               ⟨"X", Side.sell, 60, 2, 5⟩]).total_commission
        ∧ (processFills (Account.new "backtest" 1000)
            [⟨"X", Side.buy, 100, 1, 10⟩,
             ⟨"X", Side.sell, 60, 2, 5⟩]).total_realized_pnl = 0) :=
  ⟨by decide, by decide,
    c1_amended_accounting_identity 1000 (by decide)
      [⟨"X", Side.buy, 100, 1, 10⟩, ⟨"X", Side.sell, 60, 2, 5⟩] (by decide)⟩

/-- C2 (code bug): handling a BUY fill followed by a SELL fill through the
portfolio manager's fill path appends both fills and accumulates the
commission, but creates no Trade and leaves `total_realized_pnl` at 0 —
`Account.add_trade` exists yet is never called from `on_fill`, even though
the backtest report derives trade counts, win rate and realized pnl from
`account.trades`. -/
theorem c2_fill_handling_creates_no_trades :
    (processFills (Account.new "backtest" 10000)
        [⟨"X", Side.buy, 100, 10, 5⟩, ⟨"X", Side.sell, 100, 11, 5⟩]).trades = []
    ∧ (processFills (Account.new "backtest" 10000)
        [⟨"X", Side.buy, 100, 10, 5⟩,
         ⟨"X", Side.sell, 100, 11, 5⟩]).total_realized_pnl = 0
    ∧ (processFills (Account.new "backtest" 10000)
        [⟨"X", Side.buy, 100, 10, 5⟩, ⟨"X", Side.sell, 100, 11, 5⟩]).fills
      = [⟨"X", Side.buy, 100, 10, 5⟩, ⟨"X", Side.sell, 100, 11, 5⟩]
    ∧ (processFills (Account.new "backtest" 10000)
        [⟨"X", Side.buy, 100, 10, 5⟩,
         ⟨"X", Side.sell, 100, 11, 5⟩]).total_commission = 10 := by
  decide

/-- The order-quantity invariant of §3/§8. -/
def OrderInv (o : Order) : Prop :=
  0 ≤ o.filled_quantity ∧ o.filled_quantity ≤ o.quantity

theorem fill_order_inv {o o2 : Order} {fq : Int} {fp : Rat}
    (h : OrderInv o) (hf : o.fill_order fq fp = some o2) :
    OrderInv o2 ∧ o2.quantity = o.quantity
      ∧ o2.filled_quantity = o.filled_quantity + fq := by
  unfold Order.fill_order at hf
  by_cases h1 : fq ≤ 0
  · rw [if_pos h1] at hf
    exact absurd hf (by simp)
  rw [if_neg h1] at hf
  by_cases h2 : o.remaining_quantity < fq
  · rw [if_pos h2] at hf
    exact absurd hf (by simp)
  rw [if_neg h2] at hf
  obtain ⟨hq, hqq⟩ := h
  unfold Order.remaining_quantity at h2
  injection hf with hf
  subst hf
  refine ⟨⟨?_, ?_⟩, rfl, rfl⟩
  · show (0 : Int) ≤ o.filled_quantity + fq
    omega
  · show o.filled_quantity + fq ≤ o.quantity
    omega

theorem applyFills_inv (steps : List (Int × Rat)) (o : Order)
    (h : OrderInv o) :
    OrderInv (o.applyFills steps)
      ∧ (o.applyFills steps).quantity = o.quantity := by
  induction steps generalizing o with
  | nil => exact ⟨h, rfl⟩
  | cons s steps ih =>
      have hstep : Order.applyFills o (s :: steps)
          = Order.applyFills ((o.fill_order s.1 s.2).getD o) steps := rfl
      rw [hstep]
      cases hfo : o.fill_order s.1 s.2 with
      | none => simpa [hfo] using ih o h
      | some o2 =>
          have h2 := fill_order_inv h hfo
          have := ih o2 h2.1
          simp only [Option.getD_some]
          exact ⟨this.1, by rw [this.2, h2.2.1]⟩

theorem fill_order_filled_iff {o o2 : Order} {fq : Int} {fp : Rat}
    (hf : o.fill_order fq fp = some o2) :
    o2.status = OrderStatus.filled ↔ o2.filled_quantity = o2.quantity := by
  unfold Order.fill_order at hf
  by_cases h1 : fq ≤ 0
  · rw [if_pos h1] at hf
    exact absurd hf (by simp)
  rw [if_neg h1] at hf
  by_cases h2 : o.remaining_quantity < fq
  · rw [if_pos h2] at hf
    exact absurd hf (by simp)
  rw [if_neg h2] at hf
  injection hf with hf
  subst hf
  by_cases h3 : o.filled_quantity + fq = o.quantity
  · simp [h3]
  · simp [h3]

/-- C3: for an order built by the constructor and any sequence of fill
applications (failing ones leaving it unchanged), `0 ≤ filled_quantity ≤
quantity`; a fill exceeding the remaining quantity fails and leaves the
order unchanged; after a successful fill the status is FILLED iff
`filled_quantity = quantity`; and `avg_filled_price` is
`accumulated_filled_amount / filled_quantity` when the latter is
non-zero. -/
theorem c3_order_fill_invariants (symbol : String) (otype : OrderType)
    (side : Side) (qty : Int) (price : Rat) (sid : String) (hq : 0 < qty)
    (steps : List (Int × Rat)) :
    (0 ≤ ((Order.new symbol otype side qty price sid).applyFills
        steps).filled_quantity
      ∧ ((Order.new symbol otype side qty price sid).applyFills
          steps).filled_quantity
        ≤ ((Order.new symbol otype side qty price sid).applyFills
            steps).quantity)
    ∧ (∀ fq fp,
        ((Order.new symbol otype side qty price sid).applyFills
            steps).remaining_quantity < fq →
          ((Order.new symbol otype side qty price sid).applyFills
              steps).fill_order fq fp = none
          ∧ ((Order.new symbol otype side qty price sid).applyFills
              steps).applyFills [(fq, fp)]
            = (Order.new symbol otype side qty price sid).applyFills steps)
    ∧ (∀ fq fp o2,
        ((Order.new symbol otype side qty price sid).applyFills
            steps).fill_order fq fp = some o2 →
          (o2.status = OrderStatus.filled ↔ o2.filled_quantity = o2.quantity))
    ∧ (((Order.new symbol otype side qty price sid).applyFills
          steps).filled_quantity ≠ 0 →
        ((Order.new symbol otype side qty price sid).applyFills
            steps).avg_filled_price
          = ((Order.new symbol otype side qty price sid).applyFills
              steps).total_filled_amount
            / (((Order.new symbol otype side qty price sid).applyFills
                steps).filled_quantity : Rat)) := by
  have h0 : OrderInv (Order.new symbol otype side qty price sid) := by
    unfold OrderInv Order.new
    constructor <;> simp
    omega
  have hinv := applyFills_inv steps (Order.new symbol otype side qty price sid) h0
  refine ⟨⟨hinv.1.1, hinv.1.2⟩, ?_, ?_, ?_⟩
  · intro fq fp hlt
    have hnone : ((Order.new symbol otype side qty price sid).applyFills
        steps).fill_order fq fp = none := by
      unfold Order.fill_order
      by_cases h1 : fq ≤ 0
      · rw [if_pos h1]
      · rw [if_neg h1, if_pos hlt]
    refine ⟨hnone, ?_⟩
    show (((Order.new symbol otype side qty price sid).applyFills
        steps).fill_order fq fp).getD _ = _
    rw [hnone]
    rfl
  · intro fq fp o2 hfo
    exact fill_order_filled_iff hfo
  · intro hne
    unfold Order.avg_filled_price
    rw [if_neg hne]

/-- Witness for C3: a 300-share order partially filled by 100@10, an
oversized 250-share attempt (rejected), then 200@11 completing it. -/
theorem c3_order_fill_invariants_witness :
    (0 : Int) < 300
    ∧ ((0 ≤ ((Order.new "X" OrderType.limit Side.buy 300 10 "s").applyFills
        [(100, 10), (250, 11), (200, 11)]).filled_quantity
      ∧ ((Order.new "X" OrderType.limit Side.buy 300 10 "s").applyFills
          [(100, 10), (250, 11), (200, 11)]).filled_quantity
        ≤ ((Order.new "X" OrderType.limit Side.buy 300 10 "s").applyFills
            [(100, 10), (250, 11), (200, 11)]).quantity)
    ∧ (∀ fq fp,
        ((Order.new "X" OrderType.limit Side.buy 300 10 "s").applyFills
            [(100, 10), (250, 11), (200, 11)]).remaining_quantity < fq →
          ((Order.new "X" OrderType.limit Side.buy 300 10 "s").applyFills
              [(100, 10), (250, 11), (200, 11)]).fill_order fq fp = none
          ∧ ((Order.new "X" OrderType.limit Side.buy 300 10 "s").applyFills
              [(100, 10), (250, 11), (200, 11)]).applyFills [(fq, fp)]
            = (Order.new "X" OrderType.limit Side.buy 300 10 "s").applyFills
                [(100, 10), (250, 11), (200, 11)])
    ∧ (∀ fq fp o2,
        ((Order.new "X" OrderType.limit Side.buy 300 10 "s").applyFills
            [(100, 10), (250, 11), (200, 11)]).fill_order fq fp = some o2 →
          (o2.status = OrderStatus.filled ↔ o2.filled_quantity = o2.quantity))
    ∧ (((Order.new "X" OrderType.limit Side.buy 300 10 "s").applyFills
          [(100, 10), (250, 11), (200, 11)]).filled_quantity ≠ 0 →
        ((Order.new "X" OrderType.limit Side.buy 300 10 "s").applyFills
            [(100, 10), (250, 11), (200, 11)]).avg_filled_price
          = ((Order.new "X" OrderType.limit Side.buy 300 10 "s").applyFills
              [(100, 10), (250, 11), (200, 11)]).total_filled_amount
            / (((Order.new "X" OrderType.limit Side.buy 300 10 "s").applyFills
                [(100, 10), (250, 11), (200, 11)]).filled_quantity : Rat))) :=
  ⟨by decide,
    c3_order_fill_invariants "X" OrderType.limit Side.buy 300 10 "s"
      (by decide) [(100, 10), (250, 11), (200, 11)]⟩

/-- C4: the three-case cost-basis rule of `Position.update_position` for a
non-zero signed change `dq`: a same-direction change (or one from a flat
position) sets `avg_price` to `|q·a + dq·p| / |q + dq|`; a sign flip sets it
to the fill price; a reduction without flip leaves it unchanged; and a
buy-then-buy sequence from flat yields the quantity-weighted average
price. -/
theorem c4_position_cost_basis_rule (s : String) (q : Int) (a : Rat)
    (dq : Int) (p : Rat) (q1 q2 : Int) (p1 p2 : Rat) (hdq : dq ≠ 0)
    (hq1 : 0 < q1) (hq2 : 0 < q2) (hp1 : 0 ≤ p1) (hp2 : 0 ≤ p2) :
    ((q = 0 ∨ (0 < q ∧ 0 < dq) ∨ (q < 0 ∧ dq < 0)) →
      ((Position.mk s q a).update_position dq p).avg_price
          = |(q : Rat) * a + (dq : Rat) * p| / |(q : Rat) + (dq : Rat)|
        ∧ ((Position.mk s q a).update_position dq p).quantity = q + dq)
    ∧ ((q + dq) * q < 0 →
        ((Position.mk s q a).update_position dq p).avg_price = p)
    ∧ ((q ≠ 0 ∧ dq * q < 0 ∧ 0 ≤ (q + dq) * q) →
        ((Position.mk s q a).update_position dq p).avg_price = a)
    ∧ ((Position.mk s 0 0).update_position q1 p1).update_position q2 p2
        = Position.mk s (q1 + q2)
            (((q1 : Rat) * p1 + (q2 : Rat) * p2) / ((q1 : Rat) + (q2 : Rat))) := by
  refine ⟨?_, ?_, ?_, ?_⟩
  · intro hcase
    have hss : (0 ≤ (Position.mk s q a).quantity ∧ 0 < dq) ∨
        ((Position.mk s q a).quantity ≤ 0 ∧ dq < 0) := by
      show (0 ≤ q ∧ 0 < dq) ∨ (q ≤ 0 ∧ dq < 0)
      omega
    have hnq : (Position.mk s q a).quantity + dq ≠ 0 := by
      show q + dq ≠ 0
      omega
    have hupd : (Position.mk s q a).update_position dq p =
        { Position.mk s q a with
          quantity := q + dq,
          avg_price := |((q : Rat) * a + (dq : Rat) * p) /
            ((q + dq : Int) : Rat)| } := by
      unfold Position.update_position
      rw [if_neg hdq, if_pos hss, if_pos hnq]
    rw [hupd]
    refine ⟨?_, rfl⟩
    show |((q : Rat) * a + (dq : Rat) * p) / ((q + dq : Int) : Rat)| = _
    rw [abs_div]
    push_cast
    rfl
  · intro hflip
    have hss : ¬ ((0 ≤ (Position.mk s q a).quantity ∧ 0 < dq) ∨
        ((Position.mk s q a).quantity ≤ 0 ∧ dq < 0)) := by
      show ¬ ((0 ≤ q ∧ 0 < dq) ∨ (q ≤ 0 ∧ dq < 0))
      rw [mul_neg_iff] at hflip
      omega
    have hflip2 : ((Position.mk s q a).quantity + dq) *
        (Position.mk s q a).quantity < 0 := hflip
    unfold Position.update_position
    rw [if_neg hdq, if_neg hss, if_pos hflip2]
  · intro hred
    obtain ⟨hqne, hopp, hnoflip⟩ := hred
    have hss : ¬ ((0 ≤ (Position.mk s q a).quantity ∧ 0 < dq) ∨
        ((Position.mk s q a).quantity ≤ 0 ∧ dq < 0)) := by
      show ¬ ((0 ≤ q ∧ 0 < dq) ∨ (q ≤ 0 ∧ dq < 0))
      rw [mul_neg_iff] at hopp
      omega
    have hnoflip2 : ¬ ((Position.mk s q a).quantity + dq) *
        (Position.mk s q a).quantity < 0 := by
      show ¬ (q + dq) * q < 0
      omega
    unfold Position.update_position
    rw [if_neg hdq, if_neg hss, if_neg hnoflip2]
  · have hfirst : (Position.mk s 0 0).update_position q1 p1
        = Position.mk s q1 p1 := by
      have hss : (0 ≤ (Position.mk s 0 0).quantity ∧ 0 < q1) ∨
          ((Position.mk s 0 0).quantity ≤ 0 ∧ q1 < 0) := by
        show (0 ≤ (0 : Int) ∧ 0 < q1) ∨ ((0 : Int) ≤ 0 ∧ q1 < 0)
        omega
      have hnq : (Position.mk s 0 0).quantity + q1 ≠ 0 := by
        show (0 : Int) + q1 ≠ 0
        omega
      unfold Position.update_position
      rw [if_neg (by omega : ¬ q1 = 0), if_pos hss, if_pos hnq]
      have hq1r : ((0 : Int) : Rat) * 0 + (q1 : Rat) * p1 = (q1 : Rat) * p1 := by
        ring
      have hval : |(((Position.mk s 0 0).quantity : Rat) *
            (Position.mk s 0 0).avg_price + (q1 : Rat) * p1) /
            (((Position.mk s 0 0).quantity + q1 : Int) : Rat)| = p1 := by
        show |(((0 : Int) : Rat) * 0 + (q1 : Rat) * p1) /
          (((0 : Int) + q1 : Int) : Rat)| = p1
        have hq1pos : (0 : Rat) < (q1 : Rat) := by exact_mod_cast hq1
        rw [hq1r]
        have : (((0 : Int) + q1 : Int) : Rat) = (q1 : Rat) := by push_cast; ring
        rw [this, mul_comm, mul_div_assoc, div_self (ne_of_gt hq1pos), mul_one,
          abs_of_nonneg hp1]
      simp only [Position.mk.injEq]
      refine ⟨by trivial, by omega, hval⟩
    rw [hfirst]
    have hss : (0 ≤ (Position.mk s q1 p1).quantity ∧ 0 < q2) ∨
        ((Position.mk s q1 p1).quantity ≤ 0 ∧ q2 < 0) := by
      show (0 ≤ q1 ∧ 0 < q2) ∨ (q1 ≤ 0 ∧ q2 < 0)
      omega
    have hnq : (Position.mk s q1 p1).quantity + q2 ≠ 0 := by
      show q1 + q2 ≠ 0
      omega
    unfold Position.update_position
    rw [if_neg (by omega : ¬ q2 = 0), if_pos hss, if_pos hnq]
    simp only [Position.mk.injEq]
    refine ⟨by trivial, by trivial, ?_⟩
    show |((q1 : Rat) * p1 + (q2 : Rat) * p2) / ((q1 + q2 : Int) : Rat)| = _
    have hnum : 0 ≤ (q1 : Rat) * p1 + (q2 : Rat) * p2 := by
      have h1 : 0 ≤ (q1 : Rat) * p1 :=
        mul_nonneg (by exact_mod_cast le_of_lt hq1) hp1
      have h2 : 0 ≤ (q2 : Rat) * p2 :=
        mul_nonneg (by exact_mod_cast le_of_lt hq2) hp2
      linarith
    have hden : (0 : Rat) < ((q1 + q2 : Int) : Rat) := by
      exact_mod_cast (by omega : (0 : Int) < q1 + q2)
    rw [abs_of_nonneg (div_nonneg hnum (le_of_lt hden))]
    push_cast
    rfl

/-- Witness for C4 at `q = 100, a = 10, dq = -40, p = 12` (a reduction) and
the buy-then-buy pair `100@10` then `300@12`. -/
theorem c4_position_cost_basis_rule_witness :
    (-40 : Int) ≠ 0 ∧ (0 : Int) < 100 ∧ (0 : Int) < 300
    ∧ (0 : Rat) ≤ 10 ∧ (0 : Rat) ≤ 12
    ∧ (((100 : Int) = 0 ∨ (0 < (100 : Int) ∧ 0 < (-40 : Int)) ∨
          ((100 : Int) < 0 ∧ (-40 : Int) < 0)) →
        ((Position.mk "X" 100 10).update_position (-40) 12).avg_price
            = |(100 : Rat) * 10 + (-40 : Rat) * 12| / |(100 : Rat) + (-40 : Rat)|
          ∧ ((Position.mk "X" 100 10).update_position (-40) 12).quantity
            = 100 + -40)
    ∧ (((100 : Int) + -40) * 100 < 0 →
        ((Position.mk "X" 100 10).update_position (-40) 12).avg_price = 12)
    ∧ (((100 : Int) ≠ 0 ∧ (-40 : Int) * 100 < 0 ∧ 0 ≤ ((100 : Int) + -40) * 100) →
        ((Position.mk "X" 100 10).update_position (-40) 12).avg_price = 10)
    ∧ ((Position.mk "X" 0 0).update_position 100 10).update_position 300 12
        = Position.mk "X" (100 + 300)
            (((100 : Rat) * 10 + (300 : Rat) * 12) / ((100 : Rat) + (300 : Rat))) :=
  ⟨by decide, by decide, by decide, by decide, by decide,
    (c4_position_cost_basis_rule "X" 100 10 (-40) 12 100 300 10 12
      (by decide) (by decide) (by decide) (by decide) (by decide)).1,
    (c4_position_cost_basis_rule "X" 100 10 (-40) 12 100 300 10 12
      (by decide) (by decide) (by decide) (by decide) (by decide)).2.1,
    (c4_position_cost_basis_rule "X" 100 10 (-40) 12 100 300 10 12
      (by decide) (by decide) (by decide) (by decide) (by decide)).2.2.1,
    (c4_position_cost_basis_rule "X" 100 10 (-40) 12 100 300 10 12
      (by decide) (by decide) (by decide) (by decide) (by decide)).2.2.2⟩

/-- C9: `freeze_cash(amount, order_id)` succeeds iff `0 < amount` and
`amount ≤ available_cash`; on success only `frozen_cash` grows, by exactly
`amount`; on failure the account is untouched; and `unfreeze_cash` saturates
at zero, never leaving `frozen_cash` negative. -/
theorem c9_freeze_unfreeze_spec (a : Account) (amount : Rat) (oid : String) :
    ((a.freeze_cash amount oid).2 = true ↔
      0 < amount ∧ amount ≤ a.available_cash)
    ∧ ((a.freeze_cash amount oid).2 = true →
        (a.freeze_cash amount oid).1
          = { a with frozen_cash := a.frozen_cash + amount })
    ∧ ((a.freeze_cash amount oid).2 = false →
        (a.freeze_cash amount oid).1 = a)
    ∧ (∀ x : Rat, (a.unfreeze_cash x).frozen_cash
          = max 0 (a.frozen_cash - x)
        ∧ 0 ≤ (a.unfreeze_cash x).frozen_cash) := by
  unfold Account.freeze_cash
  refine ⟨?_, ?_, ?_, ?_⟩
  · by_cases h1 : amount ≤ 0
    · rw [if_pos h1]
      simp only [Bool.false_eq_true, false_iff]
      intro hcontra
      linarith [hcontra.1]
    rw [if_neg h1]
    by_cases h2 : a.available_cash < amount
    · rw [if_pos h2]
      simp only [Bool.false_eq_true, false_iff]
      intro hcontra
      linarith [hcontra.2]
    · rw [if_neg h2]
      simp only [true_iff]
      constructor <;> linarith
  · by_cases h1 : amount ≤ 0
    · rw [if_pos h1]
      intro hcontra
      exact absurd hcontra (by simp)
    rw [if_neg h1]
    by_cases h2 : a.available_cash < amount
    · rw [if_pos h2]
      intro hcontra
      exact absurd hcontra (by simp)
    · rw [if_neg h2]
      intro _
      rfl
  · by_cases h1 : amount ≤ 0
    · rw [if_pos h1]
      intro _
      rfl
    rw [if_neg h1]
    by_cases h2 : a.available_cash < amount
    · rw [if_pos h2]
      intro _
      rfl
    · rw [if_neg h2]
      intro hcontra
      exact absurd hcontra (by simp)
  · intro x
    refine ⟨rfl, ?_⟩
    exact le_max_left 0 _

/-- Witness for C9 at an account with cash 100, frozen 30 and a freeze of
50 (which succeeds since available cash is 70). -/
theorem c9_freeze_unfreeze_spec_witness :
    ((({ Account.new "acct" 100 with
        frozen_cash := 30 } : Account).freeze_cash 50 "o1").2 = true ↔
      0 < (50 : Rat) ∧ (50 : Rat) ≤ ({ Account.new "acct" 100 with
        frozen_cash := 30 } : Account).available_cash)
    ∧ ((({ Account.new "acct" 100 with
          frozen_cash := 30 } : Account).freeze_cash 50 "o1").2 = true →
        (({ Account.new "acct" 100 with
          frozen_cash := 30 } : Account).freeze_cash 50 "o1").1
          = { ({ Account.new "acct" 100 with
              frozen_cash := 30 } : Account) with
              frozen_cash := ({ Account.new "acct" 100 with
                frozen_cash := 30 } : Account).frozen_cash + 50 })
    ∧ ((({ Account.new "acct" 100 with
          frozen_cash := 30 } : Account).freeze_cash 50 "o1").2 = false →
        (({ Account.new "acct" 100 with
          frozen_cash := 30 } : Account).freeze_cash 50 "o1").1
          = ({ Account.new "acct" 100 with frozen_cash := 30 } : Account))
    ∧ (∀ x : Rat, (({ Account.new "acct" 100 with
            frozen_cash := 30 } : Account).unfreeze_cash x).frozen_cash
          = max 0 (({ Account.new "acct" 100 with
              frozen_cash := 30 } : Account).frozen_cash - x)
        ∧ 0 ≤ (({ Account.new "acct" 100 with
            frozen_cash := 30 } : Account).unfreeze_cash x).frozen_cash) :=
  c9_freeze_unfreeze_spec
    ({ Account.new "acct" 100 with frozen_cash := 30 } : Account) 50 "o1"

/-- C7: with the current-time cursor set to `t`, every bar
`BacktestDataHandler.get_bars` returns has a timestamp at most
`min(end_date, t)`, and a query whose `end_date` lies beyond the cursor is
silently clamped — it returns exactly what the query with `end_date = min
end_date t` returns (the embedding is a total function; no error path
exists). -/
theorem c7_get_bars_clamped_no_lookahead (h : BacktestDataHandler)
    (symbols : List String) (start_date end_date t : Int)
    (ht : h.current_time = some t) :
    (∀ b ∈ h.get_bars symbols start_date end_date,
      b.datetime ≤ min end_date t)
    ∧ h.get_bars symbols start_date end_date
      = h.get_bars symbols start_date (min end_date t) := by
  have hclamp : (if t < end_date then t else end_date) = min end_date t := by
    rcases le_or_lt end_date t with hle | hlt
    · rw [if_neg (by omega), min_eq_left hle]
    · rw [if_pos hlt, min_eq_right (le_of_lt hlt)]
  have hclamp2 : (if t < min end_date t then t else min end_date t)
      = min end_date t := by
    rw [if_neg (by omega)]
  constructor
  · intro b hb
    unfold BacktestDataHandler.get_bars at hb
    rw [ht] at hb
    simp only [List.mem_filter, Bool.and_eq_true, decide_eq_true_eq] at hb
    rw [hclamp] at hb
    exact hb.2.2
  · unfold BacktestDataHandler.get_bars
    rw [ht]
    simp only [hclamp, hclamp2]

/-- Witness for C7: cursor at 10, bars at times 5 and 20, query window
`[0, 100]` — only the bar at 5 is returned, matching the clamped query. -/
theorem c7_get_bars_clamped_no_lookahead_witness :
    (BacktestDataHandler.mk (some 10) [⟨"X", 5⟩, ⟨"X", 20⟩]).current_time
      = some 10
    ∧ ((∀ b ∈ (BacktestDataHandler.mk (some 10)
          [⟨"X", 5⟩, ⟨"X", 20⟩]).get_bars ["X"] 0 100,
        b.datetime ≤ min 100 10)
      ∧ (BacktestDataHandler.mk (some 10)
          [⟨"X", 5⟩, ⟨"X", 20⟩]).get_bars ["X"] 0 100
        = (BacktestDataHandler.mk (some 10)
            [⟨"X", 5⟩, ⟨"X", 20⟩]).get_bars ["X"] 0 (min 100 10)) :=
  ⟨rfl, c7_get_bars_clamped_no_lookahead
    (BacktestDataHandler.mk (some 10) [⟨"X", 5⟩, ⟨"X", 20⟩])
    ["X"] 0 100 10 rfl⟩

theorem onSignal_sell_cfg (cfg cfg2 : PortfolioConfig) (st : PMState)
    (sig : Signal) (hdir : sig.direction = SignalDirection.sell) :
    onSignal cfg st sig = onSignal cfg2 st sig := by
  unfold onSignal checkRisk signalToOrder
  rw [hdir]

theorem c10_extract_sell_order (cfg : PortfolioConfig) (st : PMState)
    (sig : Signal) (o : Order) (st2 : PMState)
    (hdir : sig.direction = SignalDirection.sell)
    (h : onSignal cfg st sig = (some o, st2)) :
    ∃ pos, st.account.get_position sig.symbol = some pos
      ∧ o = Order.new sig.symbol OrderType.limit Side.sell |pos.quantity|
          sig.price sig.strategy_id := by
  unfold onSignal at h
  by_cases hdup : st.recent_signals.contains (signalKey sig)
  · rw [if_pos hdup] at h
    exact absurd h (by simp)
  rw [if_neg hdup] at h
  by_cases hrisk : checkRisk cfg st.account sig
  · rw [if_neg (by simp [hrisk])] at h
    unfold signalToOrder at h
    rw [hdir] at h
    cases hpos : st.account.get_position sig.symbol with
    | none =>
        rw [hpos] at h
        dsimp only at h
        exact absurd h (by simp)
    | some pos =>
        rw [hpos] at h
        dsimp only at h
        by_cases hz : pos.quantity = 0
        · rw [if_pos hz] at h
          dsimp only at h
          exact absurd h (by simp)
        · rw [if_neg hz] at h
          dsimp only at h
          simp only [Prod.mk.injEq, Option.some.injEq] at h
          exact ⟨pos, rfl, h.1.symm⟩
  · rw [if_pos (by simp [hrisk])] at h
    exact absurd h (by simp)

/-- C10: a SELL signal that results in an order always liquidates the whole
position — the order quantity is `|position.quantity|` — and the
position-sizing configuration (`position_size_method`,
`default_position_size`) plays no part: any values give the same result. -/
theorem c10_sell_full_liquidation (cfg : PortfolioConfig) (st : PMState)
    (sig : Signal) (o : Order) (st2 : PMState)
    (hdir : sig.direction = SignalDirection.sell)
    (hstr : 0 ≤ sig.strength ∧ sig.strength ≤ 1)
    (h : onSignal cfg st sig = (some o, st2)) :
    (∃ pos, st.account.get_position sig.symbol = some pos
      ∧ o.quantity = |pos.quantity|)
    ∧ ∀ m d, onSignal
        { cfg with
          position_size_method := m,
          default_position_size := d } st sig = (some o, st2) := by
  constructor
  · obtain ⟨pos, hpos, ho⟩ := c10_extract_sell_order cfg st sig o st2 hdir h
    exact ⟨pos, hpos, by rw [ho]; rfl⟩
  · intro m d
    rw [onSignal_sell_cfg
      { cfg with
        position_size_method := m,
        default_position_size := d } cfg st sig hdir]
    exact h

/-- The concrete account of the C10 witness: 10000 cash and 300 shares
of X at cost 10. -/
def sellScenarioAccount : Account :=
  { Account.new "acct" 10000 with positions := [⟨"X", 300, 10⟩] }

/-- The order the C10 witness expects: sell the whole 300-share position. -/
def sellScenarioOrder : Order :=
  Order.new "X" OrderType.limit Side.sell 300 12 "s1"

/-- The portfolio state after the C10 witness signal is processed. -/
def sellScenarioAfter : PMState :=
  ⟨{ sellScenarioAccount with orders := [sellScenarioOrder] }, ["X_SELL_s1"]⟩

/-- Witness for C10: an account holding 300 shares of X; the SELL signal
emits a 300-share order under the fixed-amount config, and identically
under every other sizing config. -/
theorem c10_sell_full_liquidation_witness :
    (⟨"s1", "X", SignalDirection.sell, 1, 12⟩ : Signal).direction
      = SignalDirection.sell
    ∧ (0 ≤ (⟨"s1", "X", SignalDirection.sell, 1, 12⟩ : Signal).strength
      ∧ (⟨"s1", "X", SignalDirection.sell, 1, 12⟩ : Signal).strength ≤ 1)
    ∧ onSignal ⟨1, 1, 1000, SizeMethod.fixed_amount, 10000⟩
        ⟨sellScenarioAccount, []⟩ ⟨"s1", "X", SignalDirection.sell, 1, 12⟩
      = (some sellScenarioOrder, sellScenarioAfter)
    ∧ ((∃ pos, sellScenarioAccount.get_position "X" = some pos
        ∧ sellScenarioOrder.quantity = |pos.quantity|)
      ∧ ∀ m d, onSignal { (⟨1, 1, 1000, SizeMethod.fixed_amount,
            10000⟩ : PortfolioConfig) with
            position_size_method := m, default_position_size := d }
          ⟨sellScenarioAccount, []⟩ ⟨"s1", "X", SignalDirection.sell, 1, 12⟩
        = (some sellScenarioOrder, sellScenarioAfter)) :=
  ⟨rfl, by decide, by decide,
    c10_sell_full_liquidation ⟨1, 1, 1000, SizeMethod.fixed_amount, 10000⟩
      ⟨sellScenarioAccount, []⟩ ⟨"s1", "X", SignalDirection.sell, 1, 12⟩
      sellScenarioOrder sellScenarioAfter rfl (by decide) (by decide)⟩

theorem checkBuyRisk_cash_gate {cfg : PortfolioConfig} {a : Account}
    {sig : Signal} (h : checkBuyRisk cfg a sig = true) :
    ¬ a.available_cash < calculatePositionSize cfg a sig := by
  unfold checkBuyRisk at h
  dsimp only at h
  split_ifs at h with h1 h2 h3 h4 h5
  exact h3

theorem freeze_cash_fail {a : Account} {x : Rat} {oid : String}
    (h : a.available_cash < x) : a.freeze_cash x oid = (a, false) := by
  unfold Account.freeze_cash
  by_cases h1 : x ≤ 0
  · rw [if_pos h1]
  · rw [if_neg h1, if_pos h]

/-- C5 (amended): a BUY signal is guaranteed to be rejected — no order
emitted, portfolio state (account and dedup set) unchanged — when
`available_cash` is below the sized order amount (the gate compares the two
without any commission term) or below the actually reserved
`lot_quantity · price · 1.001`; the gate does **not** compare
`available_cash` against `notional + expected_commission` as the claim
states. -/
theorem c5_amended_buy_rejection (cfg : PortfolioConfig) (st : PMState)
    (sig : Signal) (hdir : sig.direction = SignalDirection.buy)
    (hstr : 0 ≤ sig.strength ∧ sig.strength ≤ 1)
    (hcond : st.account.available_cash
        < calculatePositionSize cfg st.account sig
      ∨ st.account.available_cash
        < ((pyInt (calculatePositionSize cfg st.account sig / sig.price / 100)
            * 100 : Int) : Rat) * sig.price * (1001 / 1000)) :
    onSignal cfg st sig = (none, st) := by
  unfold onSignal
  by_cases hdup : st.recent_signals.contains (signalKey sig)
  · rw [if_pos hdup]
  rw [if_neg hdup]
  by_cases hrisk : checkRisk cfg st.account sig
  · rw [if_neg (by simp [hrisk])]
    have hrisk2 : checkBuyRisk cfg st.account sig = true := by
      unfold checkRisk at hrisk
      rw [hdir] at hrisk
      exact hrisk
    have hgate := checkBuyRisk_cash_gate hrisk2
    have hreq : st.account.available_cash
        < ((pyInt (calculatePositionSize cfg st.account sig / sig.price / 100)
            * 100 : Int) : Rat) * sig.price * (1001 / 1000) := by
      rcases hcond with hcond | hcond
      · exact absurd hcond hgate
      · exact hcond
    unfold signalToOrder
    rw [hdir]
    dsimp only
    by_cases hqty : pyInt (calculatePositionSize cfg st.account sig /
        sig.price / 100) * 100 < 100
    · rw [if_pos hqty]
    · rw [if_neg hqty, freeze_cash_fail hreq]
      rfl
  · rw [if_pos (by simp [hrisk])]

/-- C5, counterexample: config `max_position_pct = max_total_position_pct =
1, min_order_amount = 1000, fixed sizing 10000`; account with cash 10000;
BUY signal at price 33.  The sized notional is 10000 = available_cash, so
the notional plus any positive expected commission (here the executor's
minimum commission, 5) exceeds available cash, yet the gate passes (it
compares without commission) and the lot-rounded order of 300 shares
freezes only 9909.9 — an ORDER event is emitted and the account is
changed, contradicting the claim. -/
theorem c5_counterexample_cash_gate_ignores_commission :
    (onSignal ⟨1, 1, 1000, SizeMethod.fixed_amount, 10000⟩
        ⟨Account.new "acct" 10000, []⟩
        ⟨"s1", "X", SignalDirection.buy, 1, 33⟩).1
      = some (Order.new "X" OrderType.limit Side.buy 300 33 "s1")
    ∧ (Account.new "acct" 10000).available_cash
      < calculatePositionSize ⟨1, 1, 1000, SizeMethod.fixed_amount, 10000⟩
          (Account.new "acct" 10000) ⟨"s1", "X", SignalDirection.buy, 1, 33⟩
        + 5
    ∧ (onSignal ⟨1, 1, 1000, SizeMethod.fixed_amount, 10000⟩
        ⟨Account.new "acct" 10000, []⟩
        ⟨"s1", "X", SignalDirection.buy, 1, 33⟩).2.account
      ≠ Account.new "acct" 10000 := by
  refine ⟨by decide, by decide, by decide⟩

/-- Witness for C5 (amended): with fixed sizing 10000 and only 5000 of
cash, a BUY signal at price 10 is rejected with the state unchanged. -/
theorem c5_amended_buy_rejection_witness :
    (⟨"s1", "X", SignalDirection.buy, 1, 10⟩ : Signal).direction
      = SignalDirection.buy
    ∧ (0 ≤ (⟨"s1", "X", SignalDirection.buy, 1, 10⟩ : Signal).strength
      ∧ (⟨"s1", "X", SignalDirection.buy, 1, 10⟩ : Signal).strength ≤ 1)
    ∧ ((Account.new "acct" 5000).available_cash
        < calculatePositionSize ⟨1, 1, 1000, SizeMethod.fixed_amount, 10000⟩
            (Account.new "acct" 5000) ⟨"s1", "X", SignalDirection.buy, 1, 10⟩
      ∨ (Account.new "acct" 5000).available_cash
        < ((pyInt (calculatePositionSize
              ⟨1, 1, 1000, SizeMethod.fixed_amount, 10000⟩
              (Account.new "acct" 5000)
              ⟨"s1", "X", SignalDirection.buy, 1, 10⟩ / (10 : Rat) / 100)
            * 100 : Int) : Rat) * 10 * (1001 / 1000))
    ∧ onSignal ⟨1, 1, 1000, SizeMethod.fixed_amount, 10000⟩
        ⟨Account.new "acct" 5000, []⟩ ⟨"s1", "X", SignalDirection.buy, 1, 10⟩
      = (none, ⟨Account.new "acct" 5000, []⟩) :=
  ⟨rfl, by decide, by decide,
    c5_amended_buy_rejection ⟨1, 1, 1000, SizeMethod.fixed_amount, 10000⟩
      ⟨Account.new "acct" 5000, []⟩ ⟨"s1", "X", SignalDirection.buy, 1, 10⟩
      rfl (by decide) (by decide)⟩

theorem freeze_cash_succ {a : Account} {x : Rat} {oid : String}
    (h : (a.freeze_cash x oid).2 = true) :
    (a.freeze_cash x oid).1 = { a with frozen_cash := a.frozen_cash + x } := by
  unfold Account.freeze_cash at h ⊢
  by_cases h1 : x ≤ 0
  · rw [if_pos h1] at h
    exact absurd h (by simp)
  rw [if_neg h1] at h ⊢
  by_cases h2 : a.available_cash < x
  · rw [if_pos h2] at h
    exact absurd h (by simp)
  · rw [if_neg h2]

theorem onFill_frozen_buy (a : Account) (f : Fill) (hs : f.side = Side.buy) :
    (onFill a f).frozen_cash
      = max 0 (a.frozen_cash - ((f.quantity : Rat) * f.price + f.commission)) := by
  unfold onFill
  rw [if_pos hs]
  rfl

theorem onSignal_buy_frozen (cfg : PortfolioConfig) (st : PMState)
    (sig : Signal) (o : Order) (hdir : sig.direction = SignalDirection.buy)
    (ho : (onSignal cfg st sig).1 = some o) :
    (onSignal cfg st sig).2.account.frozen_cash
      = st.account.frozen_cash
        + (o.quantity : Rat) * sig.price * (1001 / 1000) := by
  unfold onSignal at ho ⊢
  by_cases hdup : st.recent_signals.contains (signalKey sig)
  · rw [if_pos hdup] at ho
    exact absurd ho (by simp)
  rw [if_neg hdup] at ho ⊢
  by_cases hrisk : checkRisk cfg st.account sig
  · rw [if_neg (by simp [hrisk])] at ho ⊢
    unfold signalToOrder at ho ⊢
    rw [hdir] at ho ⊢
    dsimp only at ho ⊢
    by_cases hqty : pyInt (calculatePositionSize cfg st.account sig /
        sig.price / 100) * 100 < 100
    · rw [if_pos hqty] at ho
      exact absurd ho (by simp)
    rw [if_neg hqty] at ho ⊢
    by_cases hfr : (st.account.freeze_cash
        (((pyInt (calculatePositionSize cfg st.account sig / sig.price / 100)
            * 100 : Int) : Rat) * sig.price * (1001 / 1000))
        ("temp_" ++ sig.symbol)).2 = true
    · rw [if_pos hfr] at ho ⊢
      dsimp only at ho ⊢
      have hoeq := Option.some.inj ho
      subst hoeq
      have hfr1 := freeze_cash_succ hfr
      rw [show ∀ b : Account, ∀ y : Order,
          (b.add_order y).frozen_cash = b.frozen_cash from fun _ _ => rfl]
      rw [hfr1]
      rfl
    · rw [if_neg hfr] at ho
      dsimp only at ho
      exact absurd ho (by simp)
  · rw [if_pos (by simp [hrisk])] at ho
    exact absurd ho (by simp)

/-- C6 (amended): when a BUY signal is turned into an order the manager
freezes `order.quantity · signal.price · 1.001`, but the fill handler
unfreezes `fill.quantity · fill.price + fill.commission`; after the fill
`frozen_cash = max(0, frozen_before + quantity·price·1.001 −
(fill_quantity·fill_price + commission))`, which equals `frozen_before`
only when the two amounts happen to coincide — the freeze/unfreeze pair is
not an exact round-trip. -/
theorem c6_amended_frozen_cash_after_fill (cfg : PortfolioConfig)
    (st : PMState) (sig : Signal) (o : Order) (f : Fill)
    (hdir : sig.direction = SignalDirection.buy)
    (ho : (onSignal cfg st sig).1 = some o)
    (hside : f.side = Side.buy) :
    (onFill (onSignal cfg st sig).2.account f).frozen_cash
      = max 0 (st.account.frozen_cash
          + (o.quantity : Rat) * sig.price * (1001 / 1000)
          - ((f.quantity : Rat) * f.price + f.commission)) := by
  rw [onFill_frozen_buy _ f hside,
    onSignal_buy_frozen cfg st sig o hdir ho]

/-- C6, counterexample: fixed sizing 100000, cash 200000, BUY signal at
price 10 → the 10000-share order freezes 100100 (= 100000·1.001); the fill
at price 10 with commission 30 unfreezes only 100030, so `frozen_cash` ends
at 70, not at its pre-signal value 0 — the claimed exact freeze/unfreeze
round-trip fails. -/
theorem c6_counterexample_freeze_unfreeze_mismatch :
    (Account.new "acct" 200000).frozen_cash = 0
    ∧ (onSignal ⟨1, 1, 1000, SizeMethod.fixed_amount, 100000⟩
        ⟨Account.new "acct" 200000, []⟩
        ⟨"s1", "X", SignalDirection.buy, 1, 10⟩).2.account.frozen_cash
      = 100100
    ∧ (onFill (onSignal ⟨1, 1, 1000, SizeMethod.fixed_amount, 100000⟩
          ⟨Account.new "acct" 200000, []⟩
          ⟨"s1", "X", SignalDirection.buy, 1, 10⟩).2.account
        ⟨"X", Side.buy, 10000, 10, 30⟩).frozen_cash = 70
    ∧ (onFill (onSignal ⟨1, 1, 1000, SizeMethod.fixed_amount, 100000⟩
          ⟨Account.new "acct" 200000, []⟩
          ⟨"s1", "X", SignalDirection.buy, 1, 10⟩).2.account
        ⟨"X", Side.buy, 10000, 10, 30⟩).frozen_cash
      ≠ (Account.new "acct" 200000).frozen_cash := by
  refine ⟨by decide, by decide, by decide, by decide⟩

/-- Witness for C6 (amended) at the counterexample scenario: the formula
gives `max 0 (0 + 100100 − 100030) = 70`. -/
theorem c6_amended_frozen_cash_after_fill_witness :
    (⟨"s1", "X", SignalDirection.buy, 1, 10⟩ : Signal).direction
      = SignalDirection.buy
    ∧ (onSignal ⟨1, 1, 1000, SizeMethod.fixed_amount, 100000⟩
        ⟨Account.new "acct" 200000, []⟩
        ⟨"s1", "X", SignalDirection.buy, 1, 10⟩).1
      = some (Order.new "X" OrderType.limit Side.buy 10000 10 "s1")
    ∧ (⟨"X", Side.buy, 10000, 10, 30⟩ : Fill).side = Side.buy
    ∧ (onFill (onSignal ⟨1, 1, 1000, SizeMethod.fixed_amount, 100000⟩
          ⟨Account.new "acct" 200000, []⟩
          ⟨"s1", "X", SignalDirection.buy, 1, 10⟩).2.account
        ⟨"X", Side.buy, 10000, 10, 30⟩).frozen_cash
      = max 0 ((Account.new "acct" 200000).frozen_cash
          + ((Order.new "X" OrderType.limit Side.buy 10000 10 "s1").quantity : Rat)
            * (⟨"s1", "X", SignalDirection.buy, 1, 10⟩ : Signal).price
            * (1001 / 1000)
          - (((⟨"X", Side.buy, 10000, 10, 30⟩ : Fill).quantity : Rat)
              * (⟨"X", Side.buy, 10000, 10, 30⟩ : Fill).price
            + (⟨"X", Side.buy, 10000, 10, 30⟩ : Fill).commission)) :=
  ⟨rfl, by decide, rfl,
    c6_amended_frozen_cash_after_fill
      ⟨1, 1, 1000, SizeMethod.fixed_amount, 100000⟩
      ⟨Account.new "acct" 200000, []⟩
      ⟨"s1", "X", SignalDirection.buy, 1, 10⟩
      (Order.new "X" OrderType.limit Side.buy 10000 10 "s1")
      ⟨"X", Side.buy, 10000, 10, 30⟩ rfl (by decide) rfl⟩

/-- C8, counterexample: with the same seed (42), the same execution config
and the same single-order stream, two runs whose environments hand out
different uuid values (as `uuid.uuid4()` does across processes — it is not
driven by the seeded RNG, and `datetime.now()` likewise) produce fills that
are **not** identical records: `order_id`/`fill_id` differ. -/
theorem c8_counterexample_identifiers_differ :
    runFills ⟨1 / 1000, 3 / 10000, 5⟩ 42 ⟨fun _ => "uuid-run-1", fun _ => 0⟩
        [⟨"X", Side.buy, 100, 10⟩]
      ≠ runFills ⟨1 / 1000, 3 / 10000, 5⟩ 42 ⟨fun _ => "uuid-run-2", fun _ => 0⟩
        [⟨"X", Side.buy, 100, 10⟩] := by
  decide

/-- C8 (amended): for a fixed RNG seed and a fixed order stream, the
seed-determined numeric content of every fill — symbol, side, quantity,
slippage-adjusted price and commission — is identical across any two runs;
only the uuid identifiers and wall-clock timestamps (drawn from the
process environment, which a seed does not fix) may differ, so the claimed
record-level equality of fills holds exactly up to those fields. -/
theorem c8_amended_numeric_determinism (cfg : ExecConfig) (seed : Nat)
    (env1 env2 : Env) (specs : List OrderSpec) :
    (runFills cfg seed env1 specs).map FillRec.numeric
      = (runFills cfg seed env2 specs).map FillRec.numeric := by
  unfold runFills
  rw [List.map_map, List.map_map]
  apply List.map_congr_left
  intro pr _
  rfl

end QuantCapital
